import Mathlib

/-!
Shallow embedding of the retrieval core of the `reg` repository
(`vector_store.py`, `document_processor.py`, `app.py`), together with
theorems settling the behavioural claims about it.

Conventions of the embedding:
* Python floats that carry similarity scores and distances are modelled as
  rationals (`ℚ`); Python integer division is `Nat` division.
* The Chroma backend is out of scope: a bound vector store is modelled by
  the oracle `BoundStore.sss`, the result of `similarity_search_with_score`,
  which either returns a list of (document, raw distance) pairs or raises
  (modelled by `Except.error`).  `VectorStore.vectorstore is None` is
  modelled by `Option`.
* Backend insert calls may fail; which sequential call fails is given by an
  oracle `ok : Nat → Bool` (call 0 is the collection-creating call when one
  happens).
-/

namespace Reg

/-! ### vector_store.py: documents and search -/

/-- A langchain `Document`: `page_content` plus a metadata dictionary,
modelled as an association list. -/
structure LDoc where
  page_content : String
  metadata : List (String × String)
deriving DecidableEq

/-- One element of the list returned by `search_similar_documents`:
the dict `{'content': ..., 'metadata': ..., 'similarity': ...}`. -/
structure ScoredDoc where
  content : String
  metadata : List (String × String)
  similarity : ℚ
deriving DecidableEq

/-- The distance-to-similarity conversion of `search_similar_documents`
(line 268 of `vector_store.py`): `similarity = 1 / (1 + score)`. -/
def similarity (score : ℚ) : ℚ := 1 / (1 + score)

/-- A vector store with a bound collection.  `sss query k` is the outcome of
`self.vectorstore.similarity_search_with_score(query, k=k)`: a list of
(document, raw distance) pairs, or an exception. -/
structure BoundStore where
  sss : String → Nat → Except String (List (LDoc × ℚ))

/-- Conversion of one backend hit into a result dict, as built in the loop
of `search_similar_documents`. -/
def toResult (p : LDoc × ℚ) : ScoredDoc :=
  { content := p.1.page_content, metadata := p.1.metadata, similarity := similarity p.2 }

/-- `VectorStore.search_similar_documents` (`vector_store.py`, lines
239-282).  The whole body sits in a `try`: an unbound store returns `[]`, a
backend exception returns `[]`, and otherwise each hit is converted via
`similarity` and kept iff `similarity >= score_threshold`, in backend
order. -/
def search_similar_documents (vs : Option BoundStore) (query : String) (k : Nat)
    (score_threshold : ℚ) : List ScoredDoc :=
  match vs with
  | none => []
  | some b =>
    match b.sss query k with
    | Except.error _ => []
    | Except.ok docs_with_scores =>
      docs_with_scores.filterMap fun p =>
        if score_threshold ≤ similarity p.2 then some (toResult p) else none

/-! Helper lemmas about `similarity`. -/

lemma similarity_pos {d : ℚ} (hd : 0 ≤ d) : 0 < similarity d := by
  have h1 : (0 : ℚ) < 1 + d := by linarith
  exact one_div_pos.mpr h1

lemma similarity_le_one {d : ℚ} (hd : 0 ≤ d) : similarity d ≤ 1 := by
  have h1 : (0 : ℚ) < 1 + d := by linarith
  unfold similarity
  rw [div_le_one h1]
  linarith

lemma similarity_lt_similarity {d₁ d₂ : ℚ} (hd : 0 ≤ d₁) (h : d₁ < d₂) :
    similarity d₂ < similarity d₁ := by
  have h1 : (0 : ℚ) < 1 + d₁ := by linarith
  have h2 : (1 : ℚ) + d₁ < 1 + d₂ := by linarith
  exact one_div_lt_one_div_of_lt h1 h2

lemma similarity_le_similarity {d₁ d₂ : ℚ} (hd : 0 ≤ d₁) (h : d₁ ≤ d₂) :
    similarity d₂ ≤ similarity d₁ := by
  rcases eq_or_lt_of_le h with heq | hlt
  · rw [heq]
  · exact le_of_lt (similarity_lt_similarity hd hlt)

/-- The filtering loop is the filter of the converted hit list. -/
lemma filterMap_threshold (t : ℚ) (rs : List (LDoc × ℚ)) :
    (rs.filterMap fun p => if t ≤ similarity p.2 then some (toResult p) else none) =
      (rs.map toResult).filter fun r => decide (t ≤ r.similarity) := by
  induction rs with
  | nil => rfl
  | cons p ps ih =>
    simp only [List.filterMap_cons, List.map_cons, List.filter_cons]
    by_cases hp : t ≤ similarity p.2
    · have hp' : decide (t ≤ (toResult p).similarity) = true := by
        simpa [toResult] using hp
      simp only [if_pos hp, hp', ih, if_true]
    · have hp' : ¬(decide (t ≤ (toResult p).similarity) = true) := by
        simpa [toResult] using hp
      simp only [if_neg hp, ih]
      rw [if_neg hp']

lemma search_ok_eq_filter (b : BoundStore) (query : String) (k : Nat) (t : ℚ)
    (rs : List (LDoc × ℚ)) (hok : b.sss query k = Except.ok rs) :
    search_similar_documents (some b) query k t =
      (rs.map toResult).filter fun r => decide (t ≤ r.similarity) := by
  simp only [search_similar_documents, hok]
  exact filterMap_threshold t rs

/-- C2: the distance-to-similarity conversion `1/(1+d)` is strictly
decreasing on nonnegative distances and maps `[0, ∞)` into `(0, 1]`. -/
theorem similarity_strict_anti_and_bounded :
    (∀ d₁ d₂ : ℚ, 0 ≤ d₁ → d₁ < d₂ → similarity d₂ < similarity d₁) ∧
    (∀ d : ℚ, 0 ≤ d → 0 < similarity d ∧ similarity d ≤ 1) :=
  ⟨fun _ _ hd h => similarity_lt_similarity hd h,
   fun _ hd => ⟨similarity_pos hd, similarity_le_one hd⟩⟩

/-- Witness for C2 at the concrete distances 0 and 1. -/
theorem similarity_strict_anti_and_bounded_witness :
    similarity 1 < similarity 0 ∧ 0 < similarity 1 ∧ similarity 1 ≤ 1 :=
  ⟨similarity_strict_anti_and_bounded.1 0 1 (by decide) (by decide),
   (similarity_strict_anti_and_bounded.2 1 (by decide)).1,
   (similarity_strict_anti_and_bounded.2 1 (by decide)).2⟩

/-- C1: when the backend returns `rs` (at most `k` hits, as the
`k`-nearest-neighbour call guarantees), the search returns only results with
similarity `≥ t`, is an order-preserving selection from the converted
backend list, has at most `k` elements, and — when the backend list is
distance-ascending over nonnegative distances — its similarities are
descending (nearest first). -/
theorem search_similar_documents_spec (b : BoundStore) (query : String) (k : Nat)
    (t : ℚ) (rs : List (LDoc × ℚ)) (hok : b.sss query k = Except.ok rs)
    (hk : rs.length ≤ k) :
    (∀ r ∈ search_similar_documents (some b) query k t, t ≤ r.similarity) ∧
    List.Sublist (search_similar_documents (some b) query k t) (rs.map toResult) ∧
    (search_similar_documents (some b) query k t).length ≤ k ∧
    ((∀ p ∈ rs, 0 ≤ p.2) → rs.Pairwise (fun p p' => p.2 ≤ p'.2) →
      (search_similar_documents (some b) query k t).Pairwise
        fun r r' => r'.similarity ≤ r.similarity) := by
  rw [search_ok_eq_filter b query k t rs hok]
  refine ⟨?_, ?_, ?_, ?_⟩
  · intro r hr
    have := List.mem_filter.mp hr
    exact of_decide_eq_true this.2
  · exact List.filter_sublist _
  · calc ((rs.map toResult).filter fun r => decide (t ≤ r.similarity)).length
        ≤ (rs.map toResult).length := List.length_filter_le _ _
      _ = rs.length := List.length_map _ _
      _ ≤ k := hk
  · intro hnn hsorted
    refine List.Pairwise.sublist (List.filter_sublist _) ?_
    rw [List.pairwise_map]
    refine hsorted.imp_of_mem ?_
    intro p p' hp hp' hle
    exact similarity_le_similarity (hnn p hp) hle

/-- Witness for C1: a store whose backend returns two hits at distances 0
and 1, searched with `k = 2` and threshold `1/2`, yields at most 2
results. -/
theorem search_similar_documents_spec_witness :
    (search_similar_documents
        (some ⟨fun _ _ => Except.ok [(⟨"a", []⟩, 0), (⟨"b", []⟩, 1)]⟩)
        "q" 2 (1/2)).length ≤ 2 :=
  (search_similar_documents_spec ⟨fun _ _ => Except.ok [(⟨"a", []⟩, 0), (⟨"b", []⟩, 1)]⟩
    "q" 2 (1/2) [(⟨"a", []⟩, 0), (⟨"b", []⟩, 1)] rfl (by decide)).2.2.1

/-- C8: searching with no bound collection returns `[]`, and searching a
bound collection that holds no vectors (the backend nearest-neighbour call
returns no hits) also returns `[]`; the model is a total function, so no
error escapes. -/
theorem search_empty_index (query : String) (k : Nat) (t : ℚ) :
    search_similar_documents none query k t = [] ∧
    (∀ b : BoundStore, b.sss query k = Except.ok [] →
      search_similar_documents (some b) query k t = []) := by
  constructor
  · rfl
  · intro b hb
    simp only [search_similar_documents, hb]
    rfl

/-- Witness for C8 at a concrete zero-vector store. -/
theorem search_empty_index_witness :
    search_similar_documents (some ⟨fun _ _ => Except.ok []⟩) "q" 5 (7/10) = [] :=
  (search_empty_index "q" 5 (7/10)).2 ⟨fun _ _ => Except.ok []⟩ rfl

/-- C9: an exception raised by the backend during the search is caught and
turned into `[]`, which is exactly the result of a fault-free search that
finds no hits — a backend fault is observationally a no-match result. -/
theorem search_error_caught (b : BoundStore) (query : String) (k : Nat) (t : ℚ)
    (e : String) (herr : b.sss query k = Except.error e) :
    search_similar_documents (some b) query k t = [] ∧
    (∀ b' : BoundStore, b'.sss query k = Except.ok [] →
      search_similar_documents (some b) query k t =
        search_similar_documents (some b') query k t) := by
  have h1 : search_similar_documents (some b) query k t = [] := by
    simp only [search_similar_documents, herr]
  refine ⟨h1, ?_⟩
  intro b' hb'
  rw [h1]
  simp only [search_similar_documents, hb']
  rfl

/-- Witness for C9 at a concrete always-raising store. -/
theorem search_error_caught_witness :
    search_similar_documents (some ⟨fun _ _ => Except.error "boom"⟩) "q" 5 (7/10) = [] :=
  (search_error_caught ⟨fun _ _ => Except.error "boom"⟩ "q" 5 (7/10) "boom" rfl).1

/-! ### vector_store.py: collection lifecycle (add / clear / update / stats)

The store state is `Option (List LDoc)`: `none` models `self.vectorstore is
None` together with no collection on disk (the two stay in lockstep along
every path of the code: `_initialize_vectorstore` binds exactly when the
collection exists, and `clear_collection` deletes and then re-initialises);
`some coll` models a bound store whose collection holds the vectors `coll`
in insertion order.  Backend insert calls may fail: `ok n` tells whether
the n-th embed-and-insert call of one `add_documents` run succeeds
(call 0 is `Chroma.from_documents` when the store is unbound, the following
ones are the `vectorstore.add_documents` batch calls). -/

/-- The batch size of `add_documents` (`vector_store.py`, line 184). -/
def batch_size : Nat := 50

/-- The batch loop of `add_documents` (lines 216-227): insert the pending
documents in slices of `batch_size`; a failing call returns `False` at once,
keeping what was already inserted and leaving the rest uninserted. -/
def addBatches (ok : Nat → Bool) (i : Nat) (coll : List LDoc) (pending : List LDoc) :
    Bool × List LDoc :=
  match pending with
  | [] => (true, coll)
  | d :: rest =>
    if ok i then
      addBatches ok (i + 1) (coll ++ (d :: rest).take batch_size)
        ((d :: rest).drop batch_size)
    else (false, coll)
termination_by pending.length
decreasing_by
  simp only [batch_size, List.length_drop, List.length_cons]
  omega

/-- `VectorStore.add_documents` (lines 151-237).  An empty document list is
refused (`False`, no state change).  With no bound store, the collection is
created seeded with the first `batch_size` documents by
`Chroma.from_documents` (call 0); on creation failure nothing is bound.
The remaining documents then go through the batch loop. -/
def add_documents (ok : Nat → Bool) (s : Option (List LDoc)) (documents : List LDoc) :
    Bool × Option (List LDoc) :=
  if documents.isEmpty then (false, s)
  else
    match s with
    | none =>
      if ok 0 then
        let res := addBatches ok 1 (documents.take batch_size) (documents.drop batch_size)
        (res.1, some res.2)
      else (false, none)
    | some coll =>
      let res := addBatches ok 0 coll documents
      (res.1, some res.2)

/-- `VectorStore.clear_collection` (lines 305-371): delete the collection if
it exists (`okDelete` tells whether the backend delete call succeeds; on
failure the method returns `False` with the collection untouched), then
re-initialise, which leaves the store unbound since no collection remains. -/
def clear_collection (okDelete : Bool) (s : Option (List LDoc)) :
    Bool × Option (List LDoc) :=
  match s with
  | none => (true, none)
  | some coll => if okDelete then (true, none) else (false, some coll)

/-- `VectorStore.update_documents` (lines 373-406): clear, then add the new
documents; a failed clear aborts with `False`. -/
def update_documents (okDelete : Bool) (ok : Nat → Bool) (s : Option (List LDoc))
    (documents : List LDoc) : Bool × Option (List LDoc) :=
  let cres := clear_collection okDelete s
  if cres.1 then add_documents ok cres.2 documents else (false, cres.2)

/-- `VectorStore.get_collection_stats` (lines 284-303): the dict
`{'총_문서수': n}` where `n` is the collection's vector count, `0` when the
store is unbound. -/
def get_collection_stats (s : Option (List LDoc)) : List (String × Nat) :=
  match s with
  | none => [("총_문서수", 0)]
  | some coll => [("총_문서수", coll.length)]

/-- C3: `update_documents([])` clears any existing collection, returns
`False` (the empty insert is refused by `add_documents`), and leaves the
collection count at 0. -/
theorem update_documents_empty (ok : Nat → Bool) (s : Option (List LDoc)) :
    update_documents true ok s [] = (false, none) ∧
    get_collection_stats (update_documents true ok s []).2 = [("총_문서수", 0)] := by
  have hclear : clear_collection true s = (true, none) := by
    cases s <;> rfl
  have h : update_documents true ok s [] = (false, none) := by
    simp only [update_documents, hclear]
    rfl
  refine ⟨h, ?_⟩
  rw [h]
  rfl

/-! Step equations for the batch loop. -/

lemma addBatches_nil (ok : Nat → Bool) (i : Nat) (coll : List LDoc) :
    addBatches ok i coll [] = (true, coll) := by
  rw [addBatches.eq_def]

lemma addBatches_cons_ok {ok : Nat → Bool} {i : Nat} (h : ok i = true)
    (coll : List LDoc) (d : LDoc) (rest : List LDoc) :
    addBatches ok i coll (d :: rest) =
      addBatches ok (i + 1) (coll ++ (d :: rest).take batch_size)
        ((d :: rest).drop batch_size) := by
  rw [addBatches.eq_def, h]
  simp

lemma addBatches_cons_fail {ok : Nat → Bool} {i : Nat} (h : ok i = false)
    (coll : List LDoc) (d : LDoc) (rest : List LDoc) :
    addBatches ok i coll (d :: rest) = (false, coll) := by
  rw [addBatches.eq_def, h]
  simp

/-! Lemmas about the batch loop. -/

lemma addBatches_all_ok (ok : Nat → Bool) (hok : ∀ i, ok i = true) :
    ∀ (n : Nat) (pending : List LDoc), pending.length ≤ n →
      ∀ (i : Nat) (coll : List LDoc),
        addBatches ok i coll pending = (true, coll ++ pending) := by
  intro n
  induction n with
  | zero =>
    intro pending hlen i coll
    have : pending = [] := List.eq_nil_of_length_eq_zero (Nat.le_zero.mp hlen)
    subst this
    simp [addBatches_nil]
  | succ n ihn =>
    intro pending hlen i coll
    match pending with
    | [] => simp [addBatches_nil]
    | d :: rest =>
      rw [addBatches_cons_ok (hok i)]
      have hlen' : ((d :: rest).drop batch_size).length ≤ n := by
        simp only [batch_size, List.length_drop, List.length_cons]
        simp only [List.length_cons] at hlen
        omega
      rw [ihn _ hlen' (i + 1) (coll ++ (d :: rest).take batch_size)]
      rw [List.append_assoc, List.take_append_drop]

lemma addBatches_fail_at (ok : Nat → Bool) :
    ∀ (j i : Nat) (coll pending : List LDoc),
      (∀ m, m < j → ok (i + m) = true) → ok (i + j) = false →
      batch_size * j < pending.length →
      addBatches ok i coll pending = (false, coll ++ pending.take (batch_size * j)) := by
  intro j
  induction j with
  | zero =>
    intro i coll pending _ hfail hlen
    match pending with
    | [] => simp at hlen
    | d :: rest =>
      rw [Nat.add_zero] at hfail
      rw [addBatches_cons_fail hfail]
      simp
  | succ j ihj =>
    intro i coll pending hpre hfail hlen
    match pending with
    | [] => simp at hlen
    | d :: rest =>
      have h0 : ok i = true := by
        have := hpre 0 (Nat.succ_pos j)
        simpa using this
      rw [addBatches_cons_ok h0]
      have hpre' : ∀ m, m < j → ok (i + 1 + m) = true := by
        intro m hm
        have := hpre (m + 1) (by omega)
        rwa [show i + (m + 1) = i + 1 + m by omega] at this
      have hfail' : ok (i + 1 + j) = false := by
        rwa [show i + (j + 1) = i + 1 + j by omega] at hfail
      have hlen' : batch_size * j < ((d :: rest).drop batch_size).length := by
        simp only [List.length_drop]
        have : batch_size * (j + 1) = batch_size + batch_size * j := by ring
        rw [this] at hlen
        omega
      rw [ihj (i + 1) (coll ++ (d :: rest).take batch_size) _ hpre' hfail' hlen']
      rw [List.append_assoc, ← List.take_add]
      have : batch_size + batch_size * j = batch_size * (j + 1) := by ring
      rw [this]

/-- C4: batched insertion.  With a bound collection: if the first `j` batch
calls succeed and the `j`-th fails, the remaining batches are skipped, the
call returns `False`, and exactly the first `j` batches (the first
`batch_size * j` documents) stay inserted — no rollback.  With no bound
collection and a nonempty document list: a failed creation call leaves
nothing bound; a successful creation seeds the collection with the first
batch (at most `batch_size = 50` records) and a later failure at batch
`j + 1` keeps exactly the first `batch_size * (j + 1)` documents; when
every call succeeds, all documents end up inserted. -/
theorem add_documents_batching :
    batch_size = 50 ∧
    (∀ (documents : List LDoc), (documents.take batch_size).length ≤ batch_size) ∧
    (∀ (ok : Nat → Bool) (documents : List LDoc), documents ≠ [] → ok 0 = false →
      add_documents ok none documents = (false, none)) ∧
    (∀ (ok : Nat → Bool) (coll documents : List LDoc) (j : Nat),
      (∀ m, m < j → ok m = true) → ok j = false → batch_size * j < documents.length →
      add_documents ok (some coll) documents =
        (false, some (coll ++ documents.take (batch_size * j)))) ∧
    (∀ (ok : Nat → Bool) (documents : List LDoc) (j : Nat),
      (∀ m, m < j + 1 → ok m = true) → ok (j + 1) = false →
      batch_size * (j + 1) < documents.length →
      add_documents ok none documents =
        (false, some (documents.take (batch_size * (j + 1))))) ∧
    (∀ (ok : Nat → Bool) (coll documents : List LDoc), (∀ i, ok i = true) →
      documents ≠ [] →
      add_documents ok (some coll) documents = (true, some (coll ++ documents)) ∧
      add_documents ok none documents = (true, some documents)) := by
  refine ⟨rfl, ?_, ?_, ?_, ?_, ?_⟩
  · intro documents
    simp [List.length_take]
  · intro ok documents hne h0
    have hemp : documents.isEmpty = false := by
      simpa [List.isEmpty_iff] using hne
    simp only [add_documents, hemp, Bool.false_eq_true, if_false, h0]
  · intro ok coll documents j hpre hfail hlen
    have hne : documents ≠ [] := by
      intro h
      rw [h] at hlen
      simp at hlen
    have hemp : documents.isEmpty = false := by
      simpa [List.isEmpty_iff] using hne
    simp only [add_documents, hemp, Bool.false_eq_true, if_false]
    rw [addBatches_fail_at ok j 0 coll documents (by simpa using hpre) (by simpa using hfail)
      hlen]
  · intro ok documents j hpre hfail hlen
    have hne : documents ≠ [] := by
      intro h
      rw [h] at hlen
      simp at hlen
    have hemp : documents.isEmpty = false := by
      simpa [List.isEmpty_iff] using hne
    have h0 : ok 0 = true := hpre 0 (Nat.succ_pos j)
    simp only [add_documents, hemp, Bool.false_eq_true, if_false, h0, if_true]
    have hpre' : ∀ m, m < j → ok (1 + m) = true := by
      intro m hm
      have := hpre (m + 1) (by omega)
      rwa [Nat.add_comm 1 m]
    have hfail' : ok (1 + j) = false := by
      rwa [Nat.add_comm 1 j]
    have hlen' : batch_size * j < (documents.drop batch_size).length := by
      simp only [List.length_drop]
      have : batch_size * (j + 1) = batch_size + batch_size * j := by ring
      rw [this] at hlen
      omega
    rw [addBatches_fail_at ok j 1 (documents.take batch_size) (documents.drop batch_size)
      hpre' hfail' hlen']
    rw [← List.take_add]
    have : batch_size + batch_size * j = batch_size * (j + 1) := by ring
    rw [this]
  · intro ok coll documents hok hne
    have hemp : documents.isEmpty = false := by
      simpa [List.isEmpty_iff] using hne
    constructor
    · simp only [add_documents, hemp, Bool.false_eq_true, if_false]
      rw [addBatches_all_ok ok hok documents.length documents le_rfl 0 coll]
    · simp only [add_documents, hemp, Bool.false_eq_true, if_false, hok 0, if_true]
      rw [addBatches_all_ok ok hok (documents.drop batch_size).length
        (documents.drop batch_size) le_rfl 1 (documents.take batch_size)]
      rw [List.take_append_drop]

/-- Witness for C4: three documents, batch size 50, every call succeeding,
starting from an unbound store: all three get inserted. -/
theorem add_documents_batching_witness :
    add_documents (fun _ => true) none
        [⟨"a", []⟩, ⟨"b", []⟩, ⟨"c", []⟩] =
      (true, some [⟨"a", []⟩, ⟨"b", []⟩, ⟨"c", []⟩]) :=
  ((add_documents_batching.2.2.2.2.2 (fun _ => true) []
    [⟨"a", []⟩, ⟨"b", []⟩, ⟨"c", []⟩] (fun _ => rfl) (by simp))).2

/-! ### document_processor.py: text cleaning and corpus statistics -/

/-- Python `str.strip()` whitespace, restricted to the ASCII whitespace
characters (space, tab, newline, carriage return, vertical tab, form
feed). -/
def isPyWhitespace (c : Char) : Bool :=
  c = ' ' || c = '\t' || c = '\n' || c = '\x0d' || c = '\x0b' || c = '\x0c'

/-- `re.sub(c+, c, text)` on a character list: every maximal run of the
character `c` is replaced by a single `c`; all other characters are kept
unchanged. -/
def collapseRuns (c : Char) : List Char → List Char
  | [] => []
  | [a] => [a]
  | a :: b :: rest =>
    if a = c ∧ b = c then collapseRuns c (b :: rest)
    else a :: collapseRuns c (b :: rest)

/-- Python `str.strip()` on a character list: drop leading and trailing
whitespace. -/
def pyStrip (l : List Char) : List Char :=
  ((l.dropWhile isPyWhitespace).reverse.dropWhile isPyWhitespace).reverse

/-- `DocumentProcessor.clean_text` (`document_processor.py`, lines 65-82):
`re.sub(r'\n+', '\n', text)`, then `re.sub(r' +', ' ', text)` (spaces
only — the pattern is a literal space, tabs are untouched), then
`text.strip()`. -/
def clean_text (l : List Char) : List Char :=
  pyStrip (collapseRuns ' ' (collapseRuns '\n' l))

/-! Lemmas about `collapseRuns` and `pyStrip`. -/

lemma collapseRuns_sublist (c : Char) : ∀ l : List Char,
    List.Sublist (collapseRuns c l) l
  | [] => List.Sublist.refl []
  | [a] => List.Sublist.refl [a]
  | a :: b :: rest => by
    rw [collapseRuns]
    by_cases h : a = c ∧ b = c
    · rw [if_pos h]
      exact List.sublist_cons_of_sublist a (collapseRuns_sublist c (b :: rest))
    · rw [if_neg h]
      exact List.Sublist.cons₂ a (collapseRuns_sublist c (b :: rest))

lemma collapseRuns_head? (c : Char) : ∀ l : List Char,
    (collapseRuns c l).head? = l.head?
  | [] => rfl
  | [a] => rfl
  | a :: b :: rest => by
    rw [collapseRuns]
    by_cases h : a = c ∧ b = c
    · rw [if_pos h]
      rw [collapseRuns_head? c (b :: rest)]
      simp [h.1, h.2]
    · rw [if_neg h]
      rfl

lemma collapseRuns_no_run (c : Char) : ∀ l : List Char,
    (collapseRuns c l).Chain' fun a b => ¬(a = c ∧ b = c)
  | [] => List.chain'_nil
  | [a] => List.chain'_singleton a
  | a :: b :: rest => by
    rw [collapseRuns]
    by_cases h : a = c ∧ b = c
    · rw [if_pos h]
      exact collapseRuns_no_run c (b :: rest)
    · rw [if_neg h]
      rw [List.chain'_cons']
      refine ⟨?_, collapseRuns_no_run c (b :: rest)⟩
      intro y hy
      rw [collapseRuns_head? c (b :: rest)] at hy
      simp only [List.head?_cons, Option.mem_def, Option.some.injEq] at hy
      subst hy
      exact h

lemma collapseRuns_chain' {R : Char → Char → Prop} {c : Char}
    (hc : ∀ x y, x = c ∨ y = c → R x y) : ∀ l : List Char,
    l.Chain' R → (collapseRuns c l).Chain' R
  | [] => fun _ => List.chain'_nil
  | [a] => fun _ => List.chain'_singleton a
  | a :: b :: rest => fun h => by
    rw [collapseRuns]
    rw [List.chain'_cons] at h
    by_cases hab : a = c ∧ b = c
    · rw [if_pos hab]
      exact collapseRuns_chain' hc (b :: rest) h.2
    · rw [if_neg hab]
      rw [List.chain'_cons']
      refine ⟨?_, collapseRuns_chain' hc (b :: rest) h.2⟩
      intro y hy
      rw [collapseRuns_head? c (b :: rest)] at hy
      simp only [List.head?_cons, Option.mem_def, Option.some.injEq] at hy
      subst hy
      exact h.1

lemma chain'_dropWhile {R : Char → Char → Prop} (p : Char → Bool) :
    ∀ l : List Char, l.Chain' R → (l.dropWhile p).Chain' R
  | [] => fun _ => List.chain'_nil
  | a :: rest => fun h => by
    rw [List.dropWhile_cons]
    by_cases hp : p a = true
    · rw [if_pos hp]
      exact chain'_dropWhile p rest h.tail
    · rw [if_neg hp]
      exact h

lemma chain'_pyStrip {R : Char → Char → Prop} (hsymm : ∀ x y, R x y → R y x)
    (l : List Char) (h : l.Chain' R) : (pyStrip l).Chain' R := by
  unfold pyStrip
  have h1 : (l.dropWhile isPyWhitespace).Chain' R := chain'_dropWhile _ l h
  have h2 : ((l.dropWhile isPyWhitespace).reverse).Chain' R := by
    rw [List.chain'_reverse]
    exact h1.imp fun {x y} hxy => hsymm x y hxy
  have h3 : (((l.dropWhile isPyWhitespace).reverse.dropWhile isPyWhitespace)).Chain' R :=
    chain'_dropWhile _ _ h2
  rw [List.chain'_reverse]
  exact h3.imp fun {x y} hxy => hsymm x y hxy

lemma head?_dropWhile_not (p : Char → Bool) :
    ∀ l : List Char, ∀ c, (l.dropWhile p).head? = some c → p c = false
  | [] => by intro c h; simp [List.dropWhile_nil] at h
  | a :: rest => by
    intro c h
    rw [List.dropWhile_cons] at h
    by_cases hp : p a = true
    · rw [if_pos hp] at h
      exact head?_dropWhile_not p rest c h
    · rw [if_neg hp] at h
      simp only [List.head?_cons, Option.some.injEq] at h
      subst h
      exact Bool.eq_false_iff.mpr hp

lemma getLast?_dropWhile_of_ne_nil (p : Char → Bool) :
    ∀ l : List Char, l.dropWhile p ≠ [] → (l.dropWhile p).getLast? = l.getLast?
  | [] => fun h => absurd rfl h
  | a :: rest => fun h => by
    rw [List.dropWhile_cons] at h ⊢
    by_cases hp : p a = true
    · rw [if_pos hp] at h ⊢
      have hrest : rest ≠ [] := by
        intro hr
        rw [hr] at h
        exact h rfl
      rw [getLast?_dropWhile_of_ne_nil p rest h]
      match rest, hrest with
      | b :: rs, _ => rfl
    · rw [if_neg hp]

lemma pyStrip_sublist (l : List Char) : List.Sublist (pyStrip l) l := by
  unfold pyStrip
  have h1 : List.Sublist ((l.dropWhile isPyWhitespace).reverse.dropWhile isPyWhitespace)
      ((l.dropWhile isPyWhitespace).reverse) := List.dropWhile_sublist _
  have h2 := h1.reverse
  rw [List.reverse_reverse] at h2
  exact h2.trans (List.dropWhile_sublist _)

lemma pyStrip_head?_not_ws (l : List Char) (c : Char)
    (h : (pyStrip l).head? = some c) : isPyWhitespace c = false := by
  unfold pyStrip at h
  rw [List.head?_reverse] at h
  have hne : (l.dropWhile isPyWhitespace).reverse.dropWhile isPyWhitespace ≠ [] := by
    intro hnil
    rw [hnil] at h
    simp at h
  rw [getLast?_dropWhile_of_ne_nil _ _ hne, List.getLast?_reverse] at h
  exact head?_dropWhile_not _ l c h

lemma pyStrip_getLast?_not_ws (l : List Char) (c : Char)
    (h : (pyStrip l).getLast? = some c) : isPyWhitespace c = false := by
  unfold pyStrip at h
  rw [List.getLast?_reverse] at h
  exact head?_dropWhile_not _ _ c h

/-- C7 counterexample: `clean_text` leaves a run of two tabs untouched (the
space-collapsing pattern is `' +'`, spaces only), so the output still
contains two adjacent tabs, contradicting "collapses each run of
spaces/tabs to a single space". -/
theorem clean_text_tabs_counterexample :
    clean_text ['a', '\t', '\t', 'b'] = ['a', '\t', '\t', 'b'] ∧
    ¬ (clean_text ['a', '\t', '\t', 'b']).Chain' fun x y => ¬(x = '\t' ∧ y = '\t') := by
  refine ⟨rfl, ?_⟩
  intro h
  rw [show clean_text ['a', '\t', '\t', 'b'] = ['a', '\t', '\t', 'b'] from rfl] at h
  have h2 := (List.chain'_cons.mp h).2
  have h3 := (List.chain'_cons.mp h2).1
  exact h3 ⟨rfl, rfl⟩

/-- C7 as amended: `clean_text` collapses each run of newlines to a single
newline and each run of spaces (spaces only, not tabs) to a single space,
and trims leading and trailing whitespace; the output is a subsequence of
the input with no two adjacent newlines, no two adjacent spaces, and
non-whitespace first and last characters. -/
theorem clean_text_spec (l : List Char) :
    List.Sublist (clean_text l) l ∧
    ((clean_text l).Chain' fun x y => ¬(x = '\n' ∧ y = '\n')) ∧
    ((clean_text l).Chain' fun x y => ¬(x = ' ' ∧ y = ' ')) ∧
    (∀ c, (clean_text l).head? = some c → isPyWhitespace c = false) ∧
    (∀ c, (clean_text l).getLast? = some c → isPyWhitespace c = false) := by
  refine ⟨?_, ?_, ?_, ?_, ?_⟩
  · exact (pyStrip_sublist _).trans
      ((collapseRuns_sublist ' ' _).trans (collapseRuns_sublist '\n' l))
  · refine chain'_pyStrip (fun x y hxy => ?_) _ ?_
    · intro hc
      exact hxy ⟨hc.2, hc.1⟩
    · refine collapseRuns_chain' (fun x y hor => ?_) _ (collapseRuns_no_run '\n' l)
      intro hc
      rcases hor with hx | hy
      · rw [hx] at hc
        exact absurd hc.1 (by decide)
      · rw [hy] at hc
        exact absurd hc.2 (by decide)
  · refine chain'_pyStrip (fun x y hxy => ?_) _ (collapseRuns_no_run ' ' _)
    intro hc
    exact hxy ⟨hc.2, hc.1⟩
  · exact fun c => pyStrip_head?_not_ws _ c
  · exact fun c => pyStrip_getLast?_not_ws _ c

/-- Witness for C7 (amended) on a concrete string with a newline run,
interior spaces and padding whitespace. -/
theorem clean_text_spec_witness :
    isPyWhitespace 'a' = false ∧ isPyWhitespace 'b' = false ∧
    clean_text [' ', 'a', '\n', '\n', ' ', ' ', 'b', ' '] = ['a', '\n', ' ', 'b'] :=
  ⟨(clean_text_spec [' ', 'a', '\n', '\n', ' ', ' ', 'b', ' ']).2.2.2.1 'a' (by decide),
   (clean_text_spec [' ', 'a', '\n', '\n', ' ', ' ', 'b', ' ']).2.2.2.2 'b' (by decide),
   by decide⟩

/-! ### document_processor.py: corpus statistics -/

/-- The metadata dict attached to each chunk by `process_documents`. -/
structure ChunkMeta where
  source : String
  chunk_id : Nat
  file_path : String
deriving DecidableEq

/-- One processed document chunk: `{'content': ..., 'metadata': ...}`. -/
structure Chunk where
  content : String
  metadata : ChunkMeta
deriving DecidableEq

/-- `DocumentProcessor.get_document_stats` (lines 174-199).  An empty chunk
list yields a three-key dict (document count, chunk count, average length,
each 0) with no total-character key; otherwise all four keys are present,
the document count is the number of distinct sources, and the average chunk
length is the integer division of total characters by chunk count. -/
def get_document_stats (documents : List Chunk) : List (String × Nat) :=
  if documents.isEmpty then
    [("총_문서수", 0), ("총_청크수", 0), ("평균_청크길이", 0)]
  else
    [("총_문서수", ((documents.map fun d => d.metadata.source).dedup).length),
     ("총_청크수", documents.length),
     ("평균_청크길이",
        ((documents.map fun d => d.content.length).sum) / documents.length),
     ("총_문자수", (documents.map fun d => d.content.length).sum)]

/-- C10: on `[]`, the stats dict has exactly the document-count, chunk-count
and average-length keys, each 0, and no total-character key; on a nonempty
chunk list it has all four keys, with the average computed by integer
division of the total character count by the chunk count. -/
theorem get_document_stats_spec :
    (get_document_stats [] =
      [("총_문서수", 0), ("총_청크수", 0), ("평균_청크길이", 0)] ∧
     ¬ "총_문자수" ∈ (get_document_stats []).map Prod.fst) ∧
    (∀ documents : List Chunk, documents ≠ [] →
      (get_document_stats documents).map Prod.fst =
        ["총_문서수", "총_청크수", "평균_청크길이", "총_문자수"] ∧
      (get_document_stats documents).lookup "평균_청크길이" =
        some (((documents.map fun d => d.content.length).sum) / documents.length) ∧
      (get_document_stats documents).lookup "총_문자수" =
        some ((documents.map fun d => d.content.length).sum) ∧
      (get_document_stats documents).lookup "총_청크수" = some documents.length ∧
      (get_document_stats documents).lookup "총_문서수" =
        some ((documents.map fun d => d.metadata.source).dedup).length) := by
  constructor
  · exact ⟨rfl, by decide⟩
  · intro documents hne
    have hemp : documents.isEmpty = false := by
      simpa [List.isEmpty_iff] using hne
    simp only [get_document_stats, hemp, Bool.false_eq_true, if_false]
    refine ⟨rfl, ?_, ?_, ?_, ?_⟩ <;> rfl

/-- Witness for C10 on a two-chunk corpus from a single source. -/
theorem get_document_stats_spec_witness :
    (get_document_stats
        [⟨"abcd", ⟨"r.docx", 0, "./data/r.docx"⟩⟩,
         ⟨"efg", ⟨"r.docx", 1, "./data/r.docx"⟩⟩]).lookup "평균_청크길이" = some 3 := by
  have h := (get_document_stats_spec.2
    [⟨"abcd", ⟨"r.docx", 0, "./data/r.docx"⟩⟩,
     ⟨"efg", ⟨"r.docx", 1, "./data/r.docx"⟩⟩] (by simp)).2.1
  simpa using h

/-! ### app.py: corpus fingerprint and staleness check -/

/-- A directory state: `files` is what `os.listdir` returns (in whatever
order the OS produces), `mtime` is `os.path.getmtime` keyed by filename
relative to the folder (the joined path has a fixed folder component).
Modification times are modelled as rationals.  `none` at the use sites
models a missing folder. -/
structure Folder where
  files : List String
  mtime : String → ℚ

/-- `filename.endswith('.docx')`, on code points. -/
def eligibleDoc (n : String) : Bool := List.isSuffixOf ".docx".data n.data

/-- `get_documents_hash` (`app.py`, lines 50-67), with the MD5 digest
abstracted as the function `md5` (its choice is irrelevant to every claim
about this function): empty string for a missing folder or no `.docx`
files; otherwise the digest of `"|".join(f"{filename}:{mtime}")` over the
sorted filenames. -/
def get_documents_hash (md5 : String → String) (fs : Option Folder) : String :=
  match fs with
  | none => ""
  | some folder =>
    let docx_files := folder.files.filter eligibleDoc
    if docx_files.isEmpty then ""
    else
      let file_info := (List.insertionSort (· ≤ ·) docx_files).map
        fun n => n ++ ":" ++ toString (folder.mtime n)
      md5 (String.intercalate "|" file_info)

/-- The sorted list of (filename, modification time) pairs of the eligible
files — the data the fingerprint is claimed to be determined by. -/
def sortedEligiblePairs (folder : Folder) : List (String × ℚ) :=
  (List.insertionSort (· ≤ ·) (folder.files.filter eligibleDoc)).map
    fun n => (n, folder.mtime n)

lemma sortedEligiblePairs_nil_iff (folder : Folder) :
    sortedEligiblePairs folder = [] ↔ folder.files.filter eligibleDoc = [] := by
  unfold sortedEligiblePairs
  constructor
  · intro h
    have hlen : (List.insertionSort (· ≤ ·) (folder.files.filter eligibleDoc)).length = 0 := by
      rw [← List.length_map _ fun n => (n, folder.mtime n), h]
      rfl
    rw [List.length_insertionSort] at hlen
    exact List.eq_nil_of_length_eq_zero hlen
  · intro h
    rw [h]
    rfl

/-- On a folder with at least one eligible file, the fingerprint factors
through `sortedEligiblePairs`. -/
lemma get_documents_hash_eq_render (md5 : String → String) (folder : Folder)
    (hne : (folder.files.filter eligibleDoc).isEmpty = false) :
    get_documents_hash md5 (some folder) =
      md5 (String.intercalate "|"
        ((sortedEligiblePairs folder).map fun p => p.1 ++ ":" ++ toString p.2)) := by
  simp only [get_documents_hash, hne, Bool.false_eq_true, if_false]
  unfold sortedEligiblePairs
  rw [List.map_map]
  rfl

/-- C5: the corpus fingerprint is the empty string when the folder is
missing or holds no eligible file; it is a function of the sorted list of
(filename, mtime) pairs of the eligible files alone (hence repeated calls
with no filesystem change agree); and it does not depend on the order in
which the directory listing presents the files. -/
theorem get_documents_hash_spec (md5 : String → String) :
    get_documents_hash md5 none = "" ∧
    (∀ folder : Folder, folder.files.filter eligibleDoc = [] →
      get_documents_hash md5 (some folder) = "") ∧
    (∀ f₁ f₂ : Folder, sortedEligiblePairs f₁ = sortedEligiblePairs f₂ →
      get_documents_hash md5 (some f₁) = get_documents_hash md5 (some f₂)) ∧
    (∀ f₁ f₂ : Folder, List.Perm f₁.files f₂.files → f₁.mtime = f₂.mtime →
      get_documents_hash md5 (some f₁) = get_documents_hash md5 (some f₂)) := by
  have hdet : ∀ f₁ f₂ : Folder, sortedEligiblePairs f₁ = sortedEligiblePairs f₂ →
      get_documents_hash md5 (some f₁) = get_documents_hash md5 (some f₂) := by
    intro f₁ f₂ hpairs
    by_cases h1 : f₁.files.filter eligibleDoc = []
    · have h2 : f₂.files.filter eligibleDoc = [] := by
        rw [← sortedEligiblePairs_nil_iff, ← hpairs, sortedEligiblePairs_nil_iff]
        exact h1
      simp only [get_documents_hash, h1, h2]
      rfl
    · have h2 : ¬ f₂.files.filter eligibleDoc = [] := by
        rw [← sortedEligiblePairs_nil_iff, ← hpairs, sortedEligiblePairs_nil_iff]
        exact h1
      rw [get_documents_hash_eq_render md5 f₁ (by simpa [List.isEmpty_iff] using h1),
        get_documents_hash_eq_render md5 f₂ (by simpa [List.isEmpty_iff] using h2),
        hpairs]
  refine ⟨rfl, ?_, hdet, ?_⟩
  · intro folder h
    simp only [get_documents_hash, h]
    rfl
  · intro f₁ f₂ hperm hmtime
    apply hdet
    have hsort : List.insertionSort (· ≤ ·) (f₁.files.filter eligibleDoc) =
        List.insertionSort (· ≤ ·) (f₂.files.filter eligibleDoc) := by
      exact List.eq_of_perm_of_sorted
        (((List.perm_insertionSort _ _).trans (hperm.filter _)).trans
          (List.perm_insertionSort _ _).symm)
        (List.sorted_insertionSort _ _) (List.sorted_insertionSort _ _)
    unfold sortedEligiblePairs
    rw [hsort, hmtime]

/-- Witness for C5: two listings of the same two files in opposite order
produce the same fingerprint. -/
theorem get_documents_hash_spec_witness :
    get_documents_hash (fun s => s) (some ⟨["b.docx", "a.docx"], fun _ => 0⟩) =
      get_documents_hash (fun s => s) (some ⟨["a.docx", "b.docx"], fun _ => 0⟩) :=
  (get_documents_hash_spec (fun s => s)).2.2.2
    ⟨["b.docx", "a.docx"], fun _ => 0⟩ ⟨["a.docx", "b.docx"], fun _ => 0⟩
    (List.Perm.swap "a.docx" "b.docx" []) rfl

/-- The possible states of `./chroma_db/documents_hash.json` as observed by
`is_vectorstore_up_to_date`: the file does not exist; opening, reading or
JSON-parsing it raises; or it parses to a dict whose `'hash'` entry is the
given optional string (`none` models an absent or non-string entry, which
Python's `saved_data.get('hash')` turns into `None`). -/
inductive HashFile where
  | missing
  | unreadable
  | parsed (hash : Option String)
deriving DecidableEq

/-- `is_vectorstore_up_to_date` (`app.py`, lines 69-82): compute the current
fingerprint; report `False` when the hash file is missing; `False` when it
cannot be read or parsed (the bare `except`); otherwise compare the stored
hash with the current fingerprint. -/
def is_vectorstore_up_to_date (md5 : String → String) (fs : Option Folder)
    (hf : HashFile) : Bool :=
  let current_hash := get_documents_hash md5 fs
  match hf with
  | HashFile.missing => false
  | HashFile.unreadable => false
  | HashFile.parsed h => h == some current_hash

/-- C6: the staleness check reports stale (`False`) exactly when the
persisted fingerprint file is missing, cannot be read or parsed, or stores
a hash different from the freshly computed fingerprint. -/
theorem is_vectorstore_up_to_date_spec (md5 : String → String) (fs : Option Folder)
    (hf : HashFile) :
    is_vectorstore_up_to_date md5 fs hf = false ↔
      hf = HashFile.missing ∨ hf = HashFile.unreadable ∨
        ∃ h, hf = HashFile.parsed h ∧ h ≠ some (get_documents_hash md5 fs) := by
  cases hf with
  | missing => simp [is_vectorstore_up_to_date]
  | unreadable => simp [is_vectorstore_up_to_date]
  | parsed h =>
    simp only [is_vectorstore_up_to_date, beq_eq_false_iff_ne, ne_eq]
    constructor
    · intro hne
      exact Or.inr (Or.inr ⟨h, rfl, hne⟩)
    · intro hor
      rcases hor with h1 | h2 | ⟨h', heq, hne⟩
      · exact absurd h1 (by simp)
      · exact absurd h2 (by simp)
      · rw [HashFile.parsed.injEq] at heq
        rw [heq]
        exact hne

end Reg
